import Mathlib

/-!
Shallow embedding of the market-making client's core components
(position tracking, fill detection, cancellation, the dual-sided
trading cycle, retry/backoff, rate limiting, and the streaming price
cache), translated from the Rust sources under `src/`.

Machine floating-point (`f64`) values are modelled as exact rationals
(`ℚ`); the claims under study are about the algebraic structure of the
computations, not about rounding.  Wall-clock durations are modelled as
explicit millisecond/second counters.  Log statements (`info!`/`warn!`)
have no observable effect and are either dropped or recorded as trace
events where a claim depends on them.
-/

namespace Polymarket

/-- Order side, from `polymarket_client_sdk::clob::types::Side`
(`Side::Buy` marks UP positions, `Side::Sell` marks DOWN positions). -/
inductive Side where
  | buy
  | sell
deriving DecidableEq, Repr

/-- A position, from `src/trading/position.rs` (`struct Position`).
Entries record `(size, price)` pairs; the wall-clock timestamp carried
by `PositionEntry` is dropped (no claim mentions it). -/
structure Position where
  market_id : String
  side : Side
  total_size : ℚ
  avg_price : ℚ
  entries : List (ℚ × ℚ)
deriving DecidableEq, Repr

/-- The `and_modify` closure of `PositionTracker::update_position`
(`src/trading/position.rs` lines 100-120): same-side fills re-average
the price, opposite-side fills reduce, or flip when the incoming size
is at least the current size. -/
def positionStep (pos : Position) (side : Side) (size price : ℚ) : Position :=
  if pos.side = side then
    let total_value := pos.total_size * pos.avg_price + size * price
    let new_total := pos.total_size + size
    { pos with
        total_size := new_total
        avg_price := total_value / new_total
        entries := pos.entries ++ [(size, price)] }
  else
    if size ≥ pos.total_size then
      { pos with
          side := side
          total_size := size - pos.total_size
          avg_price := price
          entries := pos.entries ++ [(size, price)] }
    else
      { pos with
          total_size := pos.total_size - size
          entries := pos.entries ++ [(size, price)] }

/-- The `or_insert` arm of `PositionTracker::update_position`
(`src/trading/position.rs` lines 121-127). -/
def newPosition (market_id : String) (side : Side) (size price : ℚ) : Position :=
  { market_id := market_id
    side := side
    total_size := size
    avg_price := price
    entries := [(size, price)] }

/-- The tracker's `positions: HashMap<String, Position>` field, modelled
as an association list (iteration order of the Rust hash map is
irrelevant to the claims: aggregation is commutative and reachable
states have distinct keys). -/
abbrev Tracker := List (String × Position)

/-- Association-list lookup, modelling `HashMap::get` /
`HashMap::entry` key search. -/
def lookupPos : Tracker → String → Option Position
  | [], _ => none
  | (k, p) :: rest, key => if k = key then some p else lookupPos rest key

/-- `PositionTracker::update_position` (`src/trading/position.rs` lines
85-128): `entry(market_id).and_modify(positionStep).or_insert(newPosition)`. -/
def updatePosition : Tracker → String → Side → ℚ → ℚ → Tracker
  | [], market_id, side, size, price => [(market_id, newPosition market_id side size price)]
  | (k, p) :: rest, market_id, side, size, price =>
    if k = market_id then (k, positionStep p side size price) :: rest
    else (k, p) :: updatePosition rest market_id side size price

/-- Inventory summary, from `src/trading/position.rs`
(`struct InventoryStatus`).  The human-readable `recommendation` string
(pure logging) is elided. -/
structure InventoryStatus where
  up_value : ℚ
  down_value : ℚ
  total_value : ℚ
  skew : ℚ
  is_balanced : Bool
deriving DecidableEq, Repr

/-- Sum of `total_size * avg_price` over the positions on one side, the
accumulation loop of `get_inventory_status` (`src/trading/position.rs`
lines 185-192). -/
def sideValue (positions : List Position) (s : Side) : ℚ :=
  (positions.filter (fun p => p.side = s)).foldr (fun p acc => p.total_size * p.avg_price + acc) 0

/-- `PositionTracker::get_inventory_status` (`src/trading/position.rs`
lines 181-224), as a function of the tracker's position values. -/
def getInventoryStatus (positions : List Position) : InventoryStatus :=
  let up_value := sideValue positions .buy
  let down_value := sideValue positions .sell
  let total := up_value + down_value
  let skew := if total = 0 then 0 else (up_value - down_value) / total
  { up_value := up_value
    down_value := down_value
    total_value := total
    skew := skew
    is_balanced := |skew| < 3/10 }

/-- The position values held by a tracker (`self.positions.values()`). -/
def trackerValues (t : Tracker) : List Position := t.map (·.2)

/-- `PositionTracker::check_merge_opportunity` (`src/trading/position.rs`
lines 228-252): find the first UP and the first DOWN position recorded
for `market_id`; if both exist with positive sizes and their minimum
reaches the threshold, that minimum is the mergeable amount. -/
def checkMergeOpportunity (positions : List Position) (market_id : String)
    (merge_threshold : ℚ) : Option ℚ :=
  let up_pos := positions.find? (fun p => p.market_id = market_id ∧ p.side = .buy)
  let down_pos := positions.find? (fun p => p.market_id = market_id ∧ p.side = .sell)
  match up_pos, down_pos with
  | some up, some down =>
    if up.total_size > 0 ∧ down.total_size > 0 then
      let merge_amount := min up.total_size down.total_size
      if merge_amount ≥ merge_threshold then some merge_amount else none
    else none
  | _, _ => none

/-- One `update_position` call: `(market_id, side, size, price)`. -/
structure UpdateEvent where
  market_id : String
  side : Side
  size : ℚ
  price : ℚ

/-- Apply a sequence of `update_position` calls to a tracker. -/
def applyUpdates (t : Tracker) : List UpdateEvent → Tracker
  | [] => t
  | e :: rest => applyUpdates (updatePosition t e.market_id e.side e.size e.price) rest

/-- Net signed size of a sequence of fills on one instrument: Buy sizes
count positively, Sell sizes negatively. -/
def netOf : List UpdateEvent → ℚ
  | [] => 0
  | e :: rest => (match e.side with | .buy => e.size | .sell => -e.size) + netOf rest

/-- The signed size a position represents: positive on the Buy (UP)
side, negative on the Sell (DOWN) side.  Used to relate a position to
the net of the fills that produced it. -/
def signedSize (pos : Position) : ℚ :=
  match pos.side with
  | .buy => pos.total_size
  | .sell => -pos.total_size

/-- Structural invariant of every tracker built through
`update_position`: keys are pairwise distinct (it is a map) and each
position's `market_id` field equals its key (`or_insert` sets it to the
key and `and_modify` never writes it). -/
def trackerInv (t : Tracker) : Prop :=
  (t.map (·.1)).Nodup ∧ ∀ kp ∈ t, (kp.2).market_id = kp.1

/-- `TradeExecutor::get_filled_orders` (`src/trading/executor.rs` lines
562-582).  The open-orders HTTP response is an oracle input; each open
order is represented by its extracted id string (`"id"` or `"order_id"`
field).  A tracked id absent from the open set is presumed filled. -/
def getFilledOrders (openOrdersResp : Except String (List String))
    (tracked_order_ids : List String) : Except String (List String) := do
  let open_ids ← openOrdersResp
  pure (tracked_order_ids.filter (fun id => ¬ open_ids.contains id))

/-- `CancelOrdersResult` (`src/trading/executor.rs`); the
`filled_orders` field is always returned empty by
`cancel_orders_for_market` and is elided. -/
structure CancelOrdersResult where
  cancelled : Nat
deriving DecidableEq, Repr

/-- `TradeExecutor::cancel_orders_for_market` (`src/trading/executor.rs`
lines 502-559).  Oracle inputs: the open-orders fetch (each order
reduced to its extracted id, `""` when the JSON has no id field) and
the per-order cancel outcomes.  A failed open-orders fetch is treated
as "no orders"; failed cancels are only logged, so every path returns
`Except.ok`. -/
def cancelOrdersForMarket (simulation_mode : Bool)
    (openOrdersResp : Except String (List String))
    (cancelResp : String → Except String Unit) : Except String CancelOrdersResult :=
  let open_orders : List String :=
    if simulation_mode then []
    else match openOrdersResp with
      | .ok orders => orders
      | .error _ => []
  if open_orders.isEmpty then .ok { cancelled := 0 }
  else
    let cancelled_count := open_orders.foldl
      (fun acc id =>
        if id ≠ "" then
          match cancelResp id with
          | .ok _ => acc + 1
          | .error _ => acc
        else acc) 0
    .ok { cancelled := cancelled_count }

/-- The size-decision step of the dual-sided cycle
(`src/dual_sided.rs` lines 207-220): skew past the threshold zeroes the
over-weighted side; otherwise both sides get the base size, capped by
the remaining room under the aggregate ceiling. -/
def decideSizes (skew max_skew base_size remaining : ℚ) : ℚ × ℚ :=
  if skew > max_skew then (0, min base_size remaining)
  else if skew < -max_skew then (min base_size remaining, 0)
  else (min base_size remaining, min base_size remaining)

/-- `RetryConfig`-driven retry loop `retry_with_backoff`
(`src/utils/retry.rs` lines 54-101), with the operation as a function
of the attempt index (0-based) and the backoff sleeps elided (they do
not affect the returned value or the invocation count).  Returns the
result together with the number of invocations performed.  The first
argument is the number of retries still allowed after the current
attempt. -/
def retryAux (op : Nat → Except ε α) : Nat → Nat → Except ε α × Nat
  | 0, attempt =>
    match op attempt with
    | .ok v => (.ok v, attempt + 1)
    | .error e => (.error e, attempt + 1)
  | remaining + 1, attempt =>
    match op attempt with
    | .ok v => (.ok v, attempt + 1)
    | .error _ => retryAux op remaining (attempt + 1)

/-- `retry_with_backoff` with `config.max_retries = max_retries`: the
loop `for attempt in 0..=max_retries`. -/
def retryWithBackoff (max_retries : Nat) (op : Nat → Except ε α) : Except ε α × Nat :=
  retryAux op max_retries 0

/-- `RateLimiter` (`src/utils/rate_limiter.rs`): the `last_call`
atomic (milliseconds) together with the configured minimum delay. -/
structure RateLimiter where
  last_call : Nat
  min_delay_ms : Nat
deriving DecidableEq, Repr

/-- `RateLimiter::new` (`src/utils/rate_limiter.rs` lines 16-21). -/
def RateLimiter.new (min_delay_ms : Nat) : RateLimiter :=
  { last_call := 0, min_delay_ms := min_delay_ms }

/-- `Instant::now().elapsed().as_millis() as u64`: the elapsed time of
an `Instant` created on the previous line is under a millisecond, so
the truncating `as_millis` conversion yields 0. -/
def freshInstantElapsedMs : Nat := 0

/-- `RateLimiter::wait` (`src/utils/rate_limiter.rs` lines 29-51),
returning the number of milliseconds slept together with the updated
state.  Both `now_ms` and the value stored back into `last_call` are
`freshInstantElapsedMs` (the code measures the elapsed time of the
`Instant` it has just created). -/
def RateLimiter.wait (rl : RateLimiter) : Nat × RateLimiter :=
  let now_ms := freshInstantElapsedMs
  let last := rl.last_call
  let slept :=
    if last > 0 then
      let elapsed := now_ms - last
      if elapsed < rl.min_delay_ms then rl.min_delay_ms - elapsed else 0
    else 0
  (slept, { rl with last_call := freshInstantElapsedMs })

/-- `RateLimiter::reset` (`src/utils/rate_limiter.rs` lines 54-57). -/
def RateLimiter.reset (rl : RateLimiter) : RateLimiter :=
  { rl with last_call := 0 }

/-- The shared state of `PolymarketWebSocket` (`src/websocket/mod.rs`
lines 78-95) that the subscription-management claims touch:
`subscribed_tokens`, the `last_prices` cache (keys of the form
`<short-token>_bid` / `<short-token>_ask`), and the `running` flag.
Message counters, labels, and display timers are elided. -/
structure WsState where
  subscribed_tokens : List String
  last_prices : List (String × ℚ)
  running : Bool

/-- String-keyed cache lookup (`HashMap::get` on `last_prices`). -/
def lookupPrice : List (String × ℚ) → String → Option ℚ
  | [], _ => none
  | (k, v) :: rest, key => if k = key then some v else lookupPrice rest key

/-- Key canonicalization used throughout `src/websocket/mod.rs`: the
first 20 characters of a long token id (`&token_id[..20]`). -/
def shortTokenId (token_id : String) : String :=
  if token_id.length > 20 then (token_id.toList.take 20).asString else token_id

/-- `PolymarketWebSocket::get_all_prices` (`src/websocket/mod.rs` lines
301-317): iterate the currently subscribed tokens and pair each with
its cached bid/ask, skipping tokens with an incomplete quote. -/
def getAllPrices (st : WsState) : List (String × ℚ × ℚ) :=
  st.subscribed_tokens.filterMap (fun token =>
    let short := shortTokenId token
    match lookupPrice st.last_prices (short ++ "_bid"),
          lookupPrice st.last_prices (short ++ "_ask") with
    | some b, some a => some (token, b, a)
    | _, _ => none)

/-- The externally observable operations performed by
`update_subscription`, in program order. -/
inductive WsOp where
  | signalStop
  | sleepCloseWait
  | setTokens
  | clearCache
  | signalStart
  | spawnTask
deriving DecidableEq, Repr

/-- `PolymarketWebSocket::update_subscription` (`src/websocket/mod.rs`
lines 215-269), as its sequential body: signal the running task to
stop, wait one second for the socket to close, install the new token
set, clear the price cache, set `running` again and spawn a fresh
connection task.  Returns the resulting state and the operation
trace. -/
def updateSubscription (st : WsState) (token_ids : List String) : WsState × List WsOp :=
  let st1 := { st with running := false }
  let st2 := st1
  let st3 := { st2 with subscribed_tokens := token_ids }
  let st4 := { st3 with last_prices := [] }
  let st5 := { st4 with running := true }
  (st5, [.signalStop, .sleepCloseWait, .setTokens, .clearCache, .signalStart, .spawnTask])

/-- A tracked order, from `OrderTracker` (`src/trading/order_tracker.rs`)
as consumed by the dual-sided cycle: the Rust side field is the string
`"BUY"` or `"SELL"`. -/
structure TrackedOrder where
  order_id : String
  token : String
  side : String
  price : ℚ
  size : ℚ
deriving DecidableEq, Repr

/-- Observable events of one dual-sided trading cycle, in program
order (`src/dual_sided.rs` lines 46-321). -/
inductive CycleEvent where
  | positionUpdated (token : String) (side : Side) (size price : ℚ)
  | cancelSucceeded (token : String) (cancelled : Nat)
  | cancelFailed (token : String)
  | clearedLedger (token : String)
  | waitedPropagation
  | recomputedSkew (up_value down_value total_value : ℚ)
  | decidedSizes (up_size down_size : ℚ)
  | placedOrder (token : String) (price size : ℚ)
deriving DecidableEq, Repr

/-- The external-call outcomes and ambient state one cycle of
`run_trading_cycle_dual_sided` consumes, as oracle inputs: the tracked
orders, the open-orders responses used for fill detection, the two
cancel responses, the position tracker contents, configuration, the
fixed-price atomics (`LAST_PRICE_UP/DOWN/TIME`), the clock, the price
fetch, balances, and the two placement responses. -/
structure CycleEnv where
  up_token : String
  down_token : String
  tracked_orders : List TrackedOrder
  openOrdersUpResp : Except String (List String)
  openOrdersDownResp : Except String (List String)
  cancelUpResp : Except String CancelOrdersResult
  cancelDownResp : Except String CancelOrdersResult
  tracker : Tracker
  max_total_position : ℚ
  order_size : ℚ
  refresh_interval : Nat
  last_price_up : ℚ
  last_price_down : ℚ
  last_price_time : Nat
  now_secs : Nat
  newPricesResp : Except String (ℚ × ℚ)
  balanceResp : Except String ℚ
  placeUpResp : Except String (Option String)
  balanceAfterUpResp : Except String ℚ
  placeDownResp : Except String (Option String)

/-- Step 1 of the cycle for one token (`src/dual_sided.rs` lines 69-116):
detect fills among the tracked orders for `token` and apply each to the
position tracker, emitting a `positionUpdated` event per fill.  A
failed fill check is only logged and skipped. -/
def fillStep (tracked_orders : List TrackedOrder) (token : String)
    (openOrdersResp : Except String (List String)) (t : Tracker) :
    Tracker × List CycleEvent :=
  let tracked := (tracked_orders.filter (fun o => o.token = token)).map (·.order_id)
  if tracked.isEmpty then (t, [])
  else
    match getFilledOrders openOrdersResp tracked with
    | .ok filled =>
      filled.foldl
        (fun (acc : Tracker × List CycleEvent) filled_id =>
          match tracked_orders.find? (fun o => o.order_id = filled_id ∧ o.token = token) with
          | some order =>
            let side := if order.side = "BUY" then Side.buy else Side.sell
            (updatePosition acc.1 token side order.size order.price,
             acc.2 ++ [.positionUpdated token side order.size order.price])
          | none => acc)
        (t, [])
    | .error _ => (t, [])

/-- Step 2's per-token cancel handling (`src/dual_sided.rs` lines
120-127): both arms of the match only log, so the cycle continues
either way. -/
def cancelEvent (token : String) (resp : Except String CancelOrdersResult) : CycleEvent :=
  match resp with
  | .ok result => .cancelSucceeded token result.cancelled
  | .error _ => .cancelFailed token

/-- Steps 4-8 of the cycle (`src/dual_sided.rs` lines 137-320), after
fills have been applied and orders cancelled/cleared: recompute the
inventory, stop if the aggregate ceiling is hit, obtain prices (fixed
or fresh, propagating a fetch failure with `?`), enforce the extreme
price bounds, decide sizes, check the buffered balance, and place the
UP then the DOWN order. -/
def cycleRest (env : CycleEnv) (t : Tracker) : List CycleEvent × Except String Unit :=
  let status := getInventoryStatus (trackerValues t)
  let up_position := status.up_value
  let down_position := status.down_value
  let total_position := status.total_value
  let ev4 : List CycleEvent := [.recomputedSkew up_position down_position total_position]
  if total_position ≥ env.max_total_position then (ev4, .ok ())
  else
    let pricesOut : Except String (ℚ × ℚ) :=
      if env.now_secs - env.last_price_time < env.refresh_interval then
        if env.last_price_up > 0 ∧ env.last_price_down > 0 then
          .ok (env.last_price_up, env.last_price_down)
        else env.newPricesResp
      else env.newPricesResp
    match pricesOut with
    | .error e => (ev4, .error e)
    | .ok (up_price, down_price) =>
      if up_price < 1/10 ∨ up_price > 9/10 ∨ down_price < 1/10 ∨ down_price > 9/10 then
        (ev4, .ok ())
      else
        let skew := up_position - down_position
        let max_skew := env.order_size * (6/10)
        let remaining := env.max_total_position - total_position
        let base_size := env.order_size
        let sizes := decideSizes skew max_skew base_size remaining
        let up_size := sizes.1
        let down_size := sizes.2
        let ev6 := ev4 ++ [.decidedSizes up_size down_size]
        if up_size = 0 ∧ down_size = 0 then (ev6, .ok ())
        else
          let up_need := up_price * up_size
          let down_need := down_price * down_size
          let total_need := (up_need + down_need) * (115/100)
          let balance := (env.balanceResp.toOption).getD 1000
          if balance < total_need then (ev6, .ok ())
          else
            let ev8up :=
              if up_size > 0 then
                match env.placeUpResp with
                | .ok (some _) => [CycleEvent.placedOrder env.up_token up_price up_size]
                | .ok none => []
                | .error _ => []
              else []
            let ev8down :=
              if down_size > 0 then
                let balance_after_up := (env.balanceAfterUpResp.toOption).getD 0
                let down_need_now := down_price * down_size * (115/100)
                if balance_after_up < down_need_now then []
                else
                  match env.placeDownResp with
                  | .ok (some _) => [CycleEvent.placedOrder env.down_token down_price down_size]
                  | .ok none => []
                  | .error _ => []
              else []
            (ev6 ++ ev8up ++ ev8down, .ok ())

/-- `run_trading_cycle_dual_sided` (`src/dual_sided.rs` lines 37-321):
fill detection for both tokens, cancellation of both tokens' open
orders (failures logged only), ledger clearing, the propagation wait,
and `cycleRest`.  Returns the event trace and the cycle result. -/
def runTradingCycleDualSided (env : CycleEnv) : List CycleEvent × Except String Unit :=
  let f1 := fillStep env.tracked_orders env.up_token env.openOrdersUpResp env.tracker
  let f2 := fillStep env.tracked_orders env.down_token env.openOrdersDownResp f1.1
  let evCancel := [cancelEvent env.up_token env.cancelUpResp,
                   cancelEvent env.down_token env.cancelDownResp]
  let evClear := [CycleEvent.clearedLedger env.up_token,
                  CycleEvent.clearedLedger env.down_token,
                  CycleEvent.waitedPropagation]
  let rest := cycleRest env f2.1
  (f1.2 ++ f2.2 ++ evCancel ++ evClear ++ rest.1, rest.2)

/-- Whether a cycle event is the (purely logged) outcome of the cancel
step. -/
def isCancelEvent : CycleEvent → Bool
  | .cancelSucceeded _ _ => true
  | .cancelFailed _ => true
  | _ => false

/-- A concrete cycle environment in which cancelling the UP orders
fails while every other external call succeeds: no tracked orders, an
empty position book, ample ceiling and balance, and in-range fresh
prices. -/
def cancelFailEnv : CycleEnv where
  up_token := "UP"
  down_token := "DOWN"
  tracked_orders := []
  openOrdersUpResp := .ok []
  openOrdersDownResp := .ok []
  cancelUpResp := .error "cancel failed"
  cancelDownResp := .ok { cancelled := 0 }
  tracker := []
  max_total_position := 100
  order_size := 2
  refresh_interval := 45
  last_price_up := 0
  last_price_down := 0
  last_price_time := 0
  now_secs := 0
  newPricesResp := .ok (1/2, 1/2)
  balanceResp := .ok 1000
  placeUpResp := .ok (some "oid1")
  balanceAfterUpResp := .ok 500
  placeDownResp := .ok (some "oid2")

/-- An operation that fails on every attempt makes the retry loop
consume every allowed attempt and surface the error of the last one. -/
theorem retryAux_all_fail {ε α : Type} (op : Nat → Except ε α)
    (h : ∀ n, ∃ e, op n = .error e) :
    ∀ remaining attempt, ∃ e,
      retryAux op remaining attempt = (.error e, attempt + remaining + 1) ∧
      op (attempt + remaining) = .error e := by
  intro remaining
  induction remaining with
  | zero =>
    intro attempt
    obtain ⟨e, he⟩ := h attempt
    exact ⟨e, by simp [retryAux, he], by simpa using he⟩
  | succ r ih =>
    intro attempt
    obtain ⟨e, he⟩ := h attempt
    obtain ⟨e', h1, h2⟩ := ih (attempt + 1)
    refine ⟨e', ?_, ?_⟩
    · simp only [retryAux, he]
      rw [h1]
      congr 1
      omega
    · have : attempt + 1 + r = attempt + (r + 1) := by omega
      rwa [this] at h2

/-- Claim C4: with `max_retries = 3`, an operation that fails on its
first two invocations and succeeds on the third makes
`retry_with_backoff` return the success value after exactly 3
invocations; and for any `max_retries`, an always-failing operation is
invoked exactly `max_retries + 1` times and the call returns the error
of the last invocation. -/
theorem retry_with_backoff_spec {ε α : Type} :
    (∀ (op : Nat → Except ε α) (e0 e1 : ε) (v : α),
      op 0 = .error e0 → op 1 = .error e1 → op 2 = .ok v →
      retryWithBackoff 3 op = (.ok v, 3)) ∧
    (∀ (max_retries : Nat) (op : Nat → Except ε α),
      (∀ n, ∃ e, op n = .error e) →
      ∃ e, retryWithBackoff max_retries op = (.error e, max_retries + 1) ∧
        op max_retries = .error e) := by
  constructor
  · intro op e0 e1 v h0 h1 h2
    simp [retryWithBackoff, retryAux, h0, h1, h2]
  · intro max_retries op h
    simpa [retryWithBackoff] using retryAux_all_fail op h max_retries 0

/-- Witness for claim C4: a concrete operation failing twice then
succeeding, and a concrete always-failing operation. -/
theorem retry_with_backoff_spec_witness :
    retryWithBackoff 3 (fun n => if n < 2 then Except.error "x" else Except.ok 42) =
      (Except.ok 42, 3) ∧
    ∃ e, retryWithBackoff 2 (fun _ : Nat => (Except.error "y" : Except String Nat)) =
      (Except.error e, 2 + 1) ∧
      (fun _ : Nat => (Except.error "y" : Except String Nat)) 2 = Except.error e :=
  ⟨retry_with_backoff_spec.1 _ "x" "x" 42 rfl rfl rfl,
   retry_with_backoff_spec.2 2 _ (fun _ => ⟨"y", rfl⟩)⟩

/-- Claim C9: `get_filled_orders` returns exactly the tracked ids that
are absent from the open-orders response: a tracked id is in the result
iff it is tracked and not reported open.  There is no other
classification (in particular none as cancelled). -/
theorem get_filled_orders_spec (tracked open_ids : List String) :
    ∃ filled, getFilledOrders (Except.ok open_ids) tracked = Except.ok filled ∧
      ∀ id, id ∈ filled ↔ (id ∈ tracked ∧ id ∉ open_ids) := by
  refine ⟨tracked.filter (fun id => ¬ open_ids.contains id), rfl, ?_⟩
  intro id
  simp [List.mem_filter]

/-- Claim C5 (code bug): `RateLimiter::wait` never sleeps, because both
the `now_ms` it compares against and the value it stores into
`last_call` are the elapsed milliseconds of an `Instant` created on the
spot, which truncate to 0; so `last_call` never becomes positive and
the sleeping branch is dead.  In particular two consecutive waits on a
200ms limiter sleep 0ms in total. -/
theorem rate_limiter_wait_never_sleeps :
    (∀ rl : RateLimiter, ((rl.wait).2.wait).1 = 0 ∧ (rl.wait).2.last_call = 0) ∧
    ((RateLimiter.new 200).wait).1 = 0 ∧
    (((RateLimiter.new 200).wait).2.wait).1 = 0 ∧
    (((RateLimiter.new 200).reset).wait).1 = 0 := by
  refine ⟨fun rl => ⟨?_, rfl⟩, rfl, rfl, rfl⟩
  simp [RateLimiter.wait, freshInstantElapsedMs]

/-- Claim C3: the size decision zeroes the over-weighted side when the
skew passes the threshold, leaves the other side at the base size
capped by the remaining room, and otherwise gives both sides the
capped base size; in particular skew 1/2 against threshold 2/5 yields
UP 0 and DOWN `min base remaining`. -/
theorem decide_sizes_spec (skew max_skew base_size remaining : ℚ)
    (hpos : 0 < max_skew) :
    (max_skew < skew →
      decideSizes skew max_skew base_size remaining = (0, min base_size remaining)) ∧
    (skew < -max_skew →
      decideSizes skew max_skew base_size remaining = (min base_size remaining, 0)) ∧
    (-max_skew ≤ skew → skew ≤ max_skew →
      decideSizes skew max_skew base_size remaining =
        (min base_size remaining, min base_size remaining)) ∧
    decideSizes (1/2) (2/5) base_size remaining = (0, min base_size remaining) := by
  refine ⟨?_, ?_, ?_, ?_⟩
  · intro h
    simp [decideSizes, h]
  · intro h
    have h' : ¬ skew > max_skew := by linarith
    simp [decideSizes, h, h']
  · intro h1 h2
    have h' : ¬ skew > max_skew := by linarith
    have h'' : ¬ skew < -max_skew := by linarith
    simp [decideSizes, h', h'']
  · norm_num [decideSizes]

/-- Witness for claim C3: threshold 2/5, base size 2, remaining room 3;
skew 1 zeroes the UP side, and the concrete scenario skew 1/2 yields
`(0, min 2 3)`. -/
theorem decide_sizes_spec_witness :
    decideSizes 1 (2/5) 2 3 = (0, min 2 3) ∧
    decideSizes (1/2) (2/5) 2 3 = (0, min 2 3) := by
  have h := decide_sizes_spec 1 (2/5) 2 3 (by norm_num)
  exact ⟨h.1 (by norm_num), h.2.2.2⟩

/-- Every quote in a `get_all_prices` snapshot is keyed by a currently
subscribed token, whatever the cache holds. -/
theorem getAllPrices_key_subscribed (st : WsState) (q : String × ℚ × ℚ)
    (hq : q ∈ getAllPrices st) : q.1 ∈ st.subscribed_tokens := by
  obtain ⟨token, htoken, hf⟩ := List.mem_filterMap.mp hq
  rcases hb : lookupPrice st.last_prices (shortTokenId token ++ "_bid") with _ | b
  · simp [hb] at hf
  rcases ha : lookupPrice st.last_prices (shortTokenId token ++ "_ask") with _ | a
  · simp [hb, ha] at hf
  · simp only [hb, ha, Option.some.injEq] at hf
    rw [← hf]
    exact htoken

/-- Claim C8: after `update_subscription(new_tokens)` the snapshot
never returns a quote keyed by an instrument outside `new_tokens`; the
body signals the old task to stop, waits for the socket to close,
installs the new token set, clears the price cache, and only then
spawns the new connection task; and a snapshot only ever pairs
currently subscribed tokens with cached prices. -/
theorem update_subscription_spec (st : WsState) (new_tokens : List String) :
    (∀ q ∈ getAllPrices (updateSubscription st new_tokens).1, q.1 ∈ new_tokens) ∧
    (updateSubscription st new_tokens).1.last_prices = [] ∧
    (updateSubscription st new_tokens).2 =
      [.signalStop, .sleepCloseWait, .setTokens, .clearCache, .signalStart, .spawnTask] ∧
    (∀ st' : WsState, ∀ q ∈ getAllPrices st', q.1 ∈ st'.subscribed_tokens) := by
  refine ⟨?_, rfl, rfl, fun st' q hq => getAllPrices_key_subscribed st' q hq⟩
  intro q hq
  exact getAllPrices_key_subscribed _ q hq

/-- Looking up the updated key after `update_position`: the existing
position is stepped, or a fresh one inserted. -/
theorem lookupPos_updatePosition_self (t : Tracker) (k : String) (side : Side)
    (size price : ℚ) :
    lookupPos (updatePosition t k side size price) k =
      some (match lookupPos t k with
            | some pos => positionStep pos side size price
            | none => newPosition k side size price) := by
  induction t with
  | nil => simp [updatePosition, lookupPos]
  | cons kp rest ih =>
    obtain ⟨k', p⟩ := kp
    by_cases hk : k' = k
    · subst hk
      simp [updatePosition, lookupPos]
    · simp [updatePosition, lookupPos, hk, ih]

/-- `positionStep` shifts the signed size by the incoming fill's signed
size, in every branch. -/
theorem signedSize_positionStep (pos : Position) (side : Side) (size price : ℚ) :
    signedSize (positionStep pos side size price) =
      signedSize pos + (match side with | .buy => size | .sell => -size) := by
  cases hps : pos.side <;> cases side
  · simp [positionStep, signedSize, hps]
  · by_cases hge : size ≥ pos.total_size <;>
      simp only [positionStep, signedSize, hps, if_pos, if_neg, reduceCtorEq, if_false,
        ge_iff_le, hge, if_true, reduceIte] <;> ring
  · by_cases hge : size ≥ pos.total_size <;>
      simp only [positionStep, signedSize, hps, if_pos, if_neg, reduceCtorEq, if_false,
        ge_iff_le, hge, if_true, reduceIte] <;> ring
  · simp only [positionStep, signedSize, hps, reduceCtorEq, if_true, reduceIte]
    ring

/-- `positionStep` keeps the total size non-negative for non-negative
incoming sizes. -/
theorem totalSize_nonneg_positionStep (pos : Position) (side : Side) (size price : ℚ)
    (h1 : 0 ≤ pos.total_size) (h2 : 0 ≤ size) :
    0 ≤ (positionStep pos side size price).total_size := by
  by_cases hs : pos.side = side
  · simp [positionStep, hs]
    linarith
  · by_cases hge : size ≥ pos.total_size <;> simp [positionStep, hs, hge] <;> linarith

/-- A run of same-key updates on a single-entry tracker folds
`positionStep` over the events. -/
theorem applyUpdates_single (k : String) (events : List UpdateEvent)
    (hk : ∀ e ∈ events, e.market_id = k) (pos : Position) :
    applyUpdates [(k, pos)] events =
      [(k, events.foldl (fun p e => positionStep p e.side e.size e.price) pos)] := by
  induction events generalizing pos with
  | nil => simp [applyUpdates]
  | cons e rest ih =>
    have hek : e.market_id = k := hk e (List.mem_cons_self e rest)
    have hrest : ∀ e' ∈ rest, e'.market_id = k := fun e' h' => hk e' (List.mem_cons_of_mem e h')
    simp only [applyUpdates, updatePosition, hek, if_pos rfl, List.foldl_cons]
    exact ih hrest _

/-- Folding `positionStep` accumulates the net signed size of the
events onto the starting position's signed size. -/
theorem signedSize_foldl (events : List UpdateEvent) (pos : Position) :
    signedSize (events.foldl (fun p e => positionStep p e.side e.size e.price) pos) =
      signedSize pos + netOf events := by
  induction events generalizing pos with
  | nil => simp [netOf]
  | cons e rest ih =>
    simp only [List.foldl_cons, netOf, ih, signedSize_positionStep]
    ring

/-- Folding `positionStep` over non-negative-size events preserves
non-negativity of the total size. -/
theorem totalSize_nonneg_foldl (events : List UpdateEvent) (pos : Position)
    (hpos : 0 ≤ pos.total_size) (hs : ∀ e ∈ events, 0 ≤ e.size) :
    0 ≤ (events.foldl (fun p e => positionStep p e.side e.size e.price) pos).total_size := by
  induction events generalizing pos with
  | nil => simpa
  | cons e rest ih =>
    simp only [List.foldl_cons]
    exact ih _
      (totalSize_nonneg_positionStep pos e.side e.size e.price hpos
        (hs e (List.mem_cons_self e rest)))
      (fun e' h' => hs e' (List.mem_cons_of_mem e h'))

/-- A non-negative total size makes the total the absolute value of the
signed size. -/
theorem abs_signedSize (pos : Position) (h : 0 ≤ pos.total_size) :
    |signedSize pos| = pos.total_size := by
  cases hps : pos.side <;> simp [signedSize, hps, abs_of_nonneg, abs_of_nonpos, h]

/-- Claim C2: over any same-key sequence of `update_position` calls
with non-negative sizes, the resulting `total_size` is the absolute
value of (Buy-side sizes minus Sell-side sizes), the resulting side
matches the sign of that net value, and an opposite-side update whose
size exceeds the current total flips the side to the incoming side,
sets the total to the excess, and the average price to the incoming
price. -/
theorem update_position_sequence_spec :
    (∀ (k : String) (events : List UpdateEvent),
      (∀ e ∈ events, e.market_id = k) → (∀ e ∈ events, 0 ≤ e.size) →
      ∀ pos, lookupPos (applyUpdates [] events) k = some pos →
        pos.total_size = |netOf events| ∧
        (0 < netOf events → pos.side = .buy) ∧
        (netOf events < 0 → pos.side = .sell)) ∧
    (∀ (t : Tracker) (k : String) (pos : Position) (side : Side) (size price : ℚ),
      lookupPos t k = some pos → pos.side ≠ side → pos.total_size < size →
      lookupPos (updatePosition t k side size price) k =
        some { pos with
                 side := side
                 total_size := size - pos.total_size
                 avg_price := price
                 entries := pos.entries ++ [(size, price)] }) := by
  constructor
  · intro k events hk hs pos hlook
    cases events with
    | nil => simp [applyUpdates, lookupPos] at hlook
    | cons e rest =>
      have hek : e.market_id = k := hk e (List.mem_cons_self e rest)
      have hrk : ∀ e' ∈ rest, e'.market_id = k :=
        fun e' h' => hk e' (List.mem_cons_of_mem e h')
      have hstep : applyUpdates [] (e :: rest) =
          [(k, rest.foldl (fun p e' => positionStep p e'.side e'.size e'.price)
                (newPosition k e.side e.size e.price))] := by
        simp only [applyUpdates, updatePosition]
        rw [hek]
        exact applyUpdates_single k rest hrk _
      rw [hstep] at hlook
      simp only [lookupPos, if_pos, Option.some.injEq] at hlook
      subst hlook
      have hsigned : signedSize (rest.foldl
          (fun p e' => positionStep p e'.side e'.size e'.price)
          (newPosition k e.side e.size e.price)) = netOf (e :: rest) := by
        rw [signedSize_foldl]
        cases hes : e.side <;> simp [signedSize, newPosition, netOf, hes]
      have htot : 0 ≤ (rest.foldl
          (fun p e' => positionStep p e'.side e'.size e'.price)
          (newPosition k e.side e.size e.price)).total_size := by
        refine totalSize_nonneg_foldl rest _ ?_ (fun e' h' => hs e' (List.mem_cons_of_mem e h'))
        simpa [newPosition] using hs e (List.mem_cons_self e rest)
      refine ⟨?_, ?_, ?_⟩
      · rw [← hsigned, abs_signedSize _ htot]
      · intro hnet
        rcases hP : (rest.foldl (fun p e' => positionStep p e'.side e'.size e'.price)
            (newPosition k e.side e.size e.price)).side with _ | _
        · exact hP
        · exfalso
          have : signedSize (rest.foldl (fun p e' => positionStep p e'.side e'.size e'.price)
              (newPosition k e.side e.size e.price)) ≤ 0 := by
            simp [signedSize, hP]
            linarith
          rw [hsigned] at this
          linarith
      · intro hnet
        rcases hP : (rest.foldl (fun p e' => positionStep p e'.side e'.size e'.price)
            (newPosition k e.side e.size e.price)).side with _ | _
        · exfalso
          have : 0 ≤ signedSize (rest.foldl (fun p e' => positionStep p e'.side e'.size e'.price)
              (newPosition k e.side e.size e.price)) := by
            simpa [signedSize, hP] using htot
          rw [hsigned] at this
          linarith
        · exact hP
  · intro t k pos side size price hlook hside hsize
    rw [lookupPos_updatePosition_self, hlook]
    have hge : pos.total_size ≤ size := le_of_lt hsize
    simp [positionStep, hside, hge]

/-- Witness for claim C2: buy 5 then sell 8 on market `M` flips the
position to the Sell side with total 3 and the incoming price. -/
theorem update_position_sequence_spec_witness :
    (Position.mk "M" Side.sell 3 2 [(5, 1), (8, 2)]).total_size =
      |netOf [UpdateEvent.mk "M" Side.buy 5 1, UpdateEvent.mk "M" Side.sell 8 2]| ∧
    (netOf [UpdateEvent.mk "M" Side.buy 5 1, UpdateEvent.mk "M" Side.sell 8 2] < 0 →
      (Position.mk "M" Side.sell 3 2 [(5, 1), (8, 2)]).side = Side.sell) ∧
    lookupPos (updatePosition [("m", Position.mk "m" Side.buy 10 1 [(10, 1)])]
        "m" Side.sell 12 2) "m" =
      some { Position.mk "m" Side.buy 10 1 [(10, 1)] with
               side := Side.sell
               total_size := 12 - 10
               avg_price := 2
               entries := [((10 : ℚ), (1 : ℚ))] ++ [(12, 2)] } := by
  have h1 := update_position_sequence_spec.1 "M"
    [UpdateEvent.mk "M" Side.buy 5 1, UpdateEvent.mk "M" Side.sell 8 2]
    (by intro e he; simp at he; rcases he with rfl | rfl <;> rfl)
    (by intro e he; simp at he; rcases he with rfl | rfl <;> norm_num)
    (Position.mk "M" Side.sell 3 2 [(5, 1), (8, 2)])
    (by simp [applyUpdates, updatePosition, newPosition, positionStep, lookupPos]; norm_num)
  have h2 := update_position_sequence_spec.2
    [("m", Position.mk "m" Side.buy 10 1 [(10, 1)])] "m"
    (Position.mk "m" Side.buy 10 1 [(10, 1)]) Side.sell 12 2
    (by simp [lookupPos]) (by decide) (by norm_num)
  exact ⟨h1.1, h1.2.2, h2⟩

/-- Claim C10: an opposite-side update strictly smaller than the
current total only shrinks the total by the incoming size; the side
and the average price are untouched (no re-averaging toward the
incoming fill price). -/
theorem update_position_reduce_frame (t : Tracker) (k : String) (pos : Position)
    (side : Side) (size price : ℚ) (hlook : lookupPos t k = some pos)
    (hside : pos.side ≠ side) (hsize : size < pos.total_size) :
    ∃ pos', lookupPos (updatePosition t k side size price) k = some pos' ∧
      pos'.side = pos.side ∧ pos'.avg_price = pos.avg_price ∧
      pos'.total_size = pos.total_size - size ∧
      pos'.entries = pos.entries ++ [(size, price)] := by
  rw [lookupPos_updatePosition_self, hlook]
  have hge : ¬ size ≥ pos.total_size := not_le.mpr hsize
  refine ⟨positionStep pos side size price, rfl, ?_, ?_, ?_, ?_⟩ <;>
    simp [positionStep, hside, hge]

/-- Witness for claim C10: reducing a 10-share Buy position by a
3-share Sell fill leaves side and average price alone and the total at
7. -/
theorem update_position_reduce_frame_witness :
    ∃ pos', lookupPos (updatePosition [("m", Position.mk "m" Side.buy 10 1 [(10, 1)])]
        "m" Side.sell 3 2) "m" = some pos' ∧
      pos'.side = (Position.mk "m" Side.buy 10 1 [(10, 1)]).side ∧
      pos'.avg_price = (Position.mk "m" Side.buy 10 1 [(10, 1)]).avg_price ∧
      pos'.total_size = (Position.mk "m" Side.buy 10 1 [(10, 1)]).total_size - 3 ∧
      pos'.entries = (Position.mk "m" Side.buy 10 1 [(10, 1)]).entries ++ [(3, 2)] :=
  update_position_reduce_frame [("m", Position.mk "m" Side.buy 10 1 [(10, 1)])] "m"
    (Position.mk "m" Side.buy 10 1 [(10, 1)]) Side.sell 3 2
    (by simp [lookupPos]) (by decide) (by norm_num)

/-- Witness for claim C8: a concrete cached quote for token `t1` is
keyed by a subscribed token, and after resubscribing to `t2` the
snapshot is empty. -/
theorem update_subscription_spec_witness :
    ("t1" : String) ∈ (WsState.mk ["t1"] [("t1_bid", 1), ("t1_ask", 2)] true).subscribed_tokens ∧
    getAllPrices (updateSubscription (WsState.mk ["t1"] [("t1_bid", 1), ("t1_ask", 2)] true) ["t2"]).1 = [] :=
  ⟨(update_subscription_spec (WsState.mk ["t1"] [("t1_bid", 1), ("t1_ask", 2)] true) ["t2"]).2.2.2
      (WsState.mk ["t1"] [("t1_bid", 1), ("t1_ask", 2)] true)
      ("t1", 1, 2) (by decide),
   by decide⟩

/-- `sideValue` over a cons unfolds by the head's side. -/
theorem sideValue_cons (p : Position) (l : List Position) (s : Side) :
    sideValue (p :: l) s =
      if p.side = s then p.total_size * p.avg_price + sideValue l s else sideValue l s := by
  by_cases h : p.side = s <;> simp [sideValue, List.filter_cons, h]

/-- Positions with non-negative sizes and prices have a non-negative
side value. -/
theorem sideValue_nonneg (l : List Position) (s : Side)
    (h : ∀ p ∈ l, 0 ≤ p.total_size ∧ 0 ≤ p.avg_price) : 0 ≤ sideValue l s := by
  induction l with
  | nil => simp [sideValue]
  | cons p rest ih =>
    have hp := h p (List.mem_cons_self p rest)
    have hrest := ih (fun q hq => h q (List.mem_cons_of_mem p hq))
    rw [sideValue_cons]
    by_cases hs : p.side = s
    · simp only [hs, if_pos]
      have : 0 ≤ p.total_size * p.avg_price := mul_nonneg hp.1 hp.2
      linarith
    · simpa [hs] using hrest

/-- Counterexample to claim C7 as stated: a balanced book (one UP and
one DOWN position of equal value) has `skew = 0` with
`total_value ≠ 0`, so skew is not zero *exactly* when the total value
is zero; and with a negative position value (arbitrary values are
allowed by the claim) the skew leaves `[-1, 1]`. -/
theorem inventory_status_claim_false :
    (getInventoryStatus [Position.mk "A" Side.buy 5 (1/2) [],
        Position.mk "B" Side.sell 5 (1/2) []]).skew = 0 ∧
    (getInventoryStatus [Position.mk "A" Side.buy 5 (1/2) [],
        Position.mk "B" Side.sell 5 (1/2) []]).total_value ≠ 0 ∧
    (getInventoryStatus [Position.mk "A" Side.buy 3 1 [],
        Position.mk "B" Side.sell (-1) 1 []]).skew = 2 := by
  refine ⟨?_, ?_, ?_⟩ <;> simp [getInventoryStatus, sideValue, List.filter_cons] <;> norm_num

/-- Claim C7 (amended): whenever every position has non-negative
`total_size` and `avg_price`, the derived skew lies in `[-1, 1]`; and
the skew is `0` exactly when `up_value = down_value` (which includes
every state with `total_value = 0`). -/
theorem inventory_status_spec (positions : List Position)
    (h : ∀ p ∈ positions, 0 ≤ p.total_size ∧ 0 ≤ p.avg_price) :
    -1 ≤ (getInventoryStatus positions).skew ∧
    (getInventoryStatus positions).skew ≤ 1 ∧
    ((getInventoryStatus positions).skew = 0 ↔
      (getInventoryStatus positions).up_value = (getInventoryStatus positions).down_value) := by
  have hu : 0 ≤ sideValue positions .buy := sideValue_nonneg positions .buy h
  have hd : 0 ≤ sideValue positions .sell := sideValue_nonneg positions .sell h
  simp only [getInventoryStatus]
  by_cases htot : sideValue positions .buy + sideValue positions .sell = 0
  · have hu0 : sideValue positions .buy = 0 := by linarith
    have hd0 : sideValue positions .sell = 0 := by linarith
    simp [htot, hu0, hd0]
  · have hpos : 0 < sideValue positions .buy + sideValue positions .sell :=
      lt_of_le_of_ne (by linarith) (Ne.symm htot)
    simp only [htot, if_neg, if_false]
    refine ⟨?_, ?_, ?_⟩
    · rw [le_div_iff hpos]
      linarith
    · rw [div_le_one hpos]
      linarith
    · rw [div_eq_zero_iff]
      simp only [htot, or_false]
      exact sub_eq_zero

/-- Witness for claim C7 (amended): a concrete balanced book with
non-negative values has skew 0 and equal side values. -/
theorem inventory_status_spec_witness :
    -1 ≤ (getInventoryStatus [Position.mk "A" Side.buy 5 (1/2) [],
        Position.mk "B" Side.sell 5 (1/2) []]).skew ∧
    (getInventoryStatus [Position.mk "A" Side.buy 5 (1/2) [],
        Position.mk "B" Side.sell 5 (1/2) []]).skew ≤ 1 ∧
    ((getInventoryStatus [Position.mk "A" Side.buy 5 (1/2) [],
        Position.mk "B" Side.sell 5 (1/2) []]).skew = 0 ↔
      (getInventoryStatus [Position.mk "A" Side.buy 5 (1/2) [],
        Position.mk "B" Side.sell 5 (1/2) []]).up_value =
      (getInventoryStatus [Position.mk "A" Side.buy 5 (1/2) [],
        Position.mk "B" Side.sell 5 (1/2) []]).down_value) :=
  inventory_status_spec
    [Position.mk "A" Side.buy 5 (1/2) [], Position.mk "B" Side.sell 5 (1/2) []]
    (by intro p hp; simp at hp; rcases hp with rfl | rfl <;> norm_num)

/-- `positionStep` never writes the `market_id` field. -/
theorem positionStep_market_id (pos : Position) (side : Side) (size price : ℚ) :
    (positionStep pos side size price).market_id = pos.market_id := by
  unfold positionStep
  split_ifs <;> rfl

/-- Every key of an updated tracker is an old key or the updated key. -/
theorem keys_updatePosition (t : Tracker) (k : String) (side : Side) (size price : ℚ) :
    ∀ x ∈ (updatePosition t k side size price).map (·.1), x ∈ t.map (·.1) ∨ x = k := by
  induction t with
  | nil =>
    intro x hx
    simp [updatePosition] at hx
    exact Or.inr hx
  | cons kp rest ih =>
    obtain ⟨k', p⟩ := kp
    intro x hx
    by_cases hk : k' = k
    · subst hk
      simp only [updatePosition, if_pos] at hx
      simp at hx ⊢
      tauto
    · simp only [updatePosition, if_neg hk] at hx
      simp only [List.map_cons, List.mem_cons] at hx ⊢
      rcases hx with rfl | hx
      · exact Or.inl (Or.inl rfl)
      · rcases ih x hx with h | h
        · exact Or.inl (Or.inr h)
        · exact Or.inr h

/-- `update_position` preserves the tracker invariant. -/
theorem trackerInv_updatePosition (t : Tracker) (k : String) (side : Side)
    (size price : ℚ) (h : trackerInv t) : trackerInv (updatePosition t k side size price) := by
  induction t with
  | nil =>
    refine ⟨by simp [updatePosition], ?_⟩
    intro kp hkp
    simp [updatePosition] at hkp
    simp [hkp, newPosition]
  | cons kp rest ih =>
    obtain ⟨k', p⟩ := kp
    obtain ⟨hnd, hmk⟩ := h
    simp only [List.map_cons, List.nodup_cons] at hnd
    by_cases hk : k' = k
    · subst hk
      refine ⟨?_, ?_⟩
      · simp only [updatePosition, if_pos, List.map_cons, List.nodup_cons]
        exact hnd
      · intro kp hkp
        simp only [updatePosition, if_pos, List.mem_cons] at hkp
        rcases hkp with rfl | hkp
        · simpa [positionStep_market_id] using hmk (k', p) (List.mem_cons_self _ _)
        · exact hmk kp (List.mem_cons_of_mem _ hkp)
    · have hrest : trackerInv rest :=
        ⟨hnd.2, fun kp hkp => hmk kp (List.mem_cons_of_mem _ hkp)⟩
      have ih' := ih hrest
      refine ⟨?_, ?_⟩
      · simp only [updatePosition, if_neg hk, List.map_cons, List.nodup_cons]
        refine ⟨?_, ih'.1⟩
        intro hmem
        rcases keys_updatePosition rest k side size price k' hmem with hold | hnew
        · exact hnd.1 hold
        · exact hk hnew
      · intro kp hkp
        simp only [updatePosition, if_neg hk, List.mem_cons] at hkp
        rcases hkp with rfl | hkp
        · exact hmk _ (List.mem_cons_self _ _)
        · exact ih'.2 kp hkp

/-- Any tracker built by a sequence of `update_position` calls
satisfies the invariant. -/
theorem trackerInv_applyUpdates (events : List UpdateEvent) :
    ∀ t, trackerInv t → trackerInv (applyUpdates t events) := by
  induction events with
  | nil => intro t h; simpa [applyUpdates] using h
  | cons e rest ih =>
    intro t h
    exact ih _ (trackerInv_updatePosition t e.market_id e.side e.size e.price h)

/-- In a tracker with distinct keys, a key determines its position. -/
theorem nodup_key_unique (t : Tracker) (hnd : (t.map (·.1)).Nodup) :
    ∀ (k : String) (a b : Position), (k, a) ∈ t → (k, b) ∈ t → a = b := by
  induction t with
  | nil => intro k a b ha; simp at ha
  | cons kp rest ih =>
    obtain ⟨k', p⟩ := kp
    simp only [List.map_cons, List.nodup_cons] at hnd
    intro k a b ha hb
    simp only [List.mem_cons, Prod.mk.injEq] at ha hb
    rcases ha with ⟨rfl, rfl⟩ | ha
    · rcases hb with ⟨_, rfl⟩ | hb
      · rfl
      · exact absurd (List.mem_map_of_mem (·.1) hb) hnd.1
    · rcases hb with ⟨rfl, rfl⟩ | hb
      · exact absurd (List.mem_map_of_mem (·.1) ha) hnd.1
      · exact ih hnd.2 k a b ha hb

/-- On any tracker reachable through `update_position` from the empty
tracker, `check_merge_opportunity` returns `none`: positions are keyed
by market id, so a Buy and a Sell position for the same market id never
coexist. -/
theorem reachable_merge_none (events : List UpdateEvent) (m : String) (th : ℚ) :
    checkMergeOpportunity (trackerValues (applyUpdates [] events)) m th = none := by
  have hinv : trackerInv (applyUpdates [] events) :=
    trackerInv_applyUpdates events [] ⟨by simp, by simp⟩
  simp only [checkMergeOpportunity]
  rcases hup : (trackerValues (applyUpdates [] events)).find?
      (fun p => decide (p.market_id = m) && decide (p.side = Side.buy)) with _ | up
  · simp [hup]
  rcases hdown : (trackerValues (applyUpdates [] events)).find?
      (fun p => decide (p.market_id = m) && decide (p.side = Side.sell)) with _ | down
  · simp [hup, hdown]
  exfalso
  have hup_pred := List.find?_some hup
  have hdown_pred := List.find?_some hdown
  simp only [Bool.and_eq_true, decide_eq_true_eq] at hup_pred hdown_pred
  have hup_mem : up ∈ trackerValues (applyUpdates [] events) :=
    List.mem_of_find?_eq_some hup
  have hdown_mem : down ∈ trackerValues (applyUpdates [] events) :=
    List.mem_of_find?_eq_some hdown
  simp only [trackerValues, List.mem_map] at hup_mem hdown_mem
  obtain ⟨kp1, hk1, he1⟩ := hup_mem
  obtain ⟨kp2, hk2, he2⟩ := hdown_mem
  have hkey1 : kp1.1 = m := by
    have h1 := hinv.2 kp1 hk1
    rw [he1] at h1
    rw [← h1]
    exact hup_pred.1
  have hkey2 : kp2.1 = m := by
    have h2 := hinv.2 kp2 hk2
    rw [he2] at h2
    rw [← h2]
    exact hdown_pred.1
  have hmem1 : (m, up) ∈ applyUpdates [] events := by
    have : kp1 = (m, up) := Prod.ext hkey1 he1
    rwa [this] at hk1
  have hmem2 : (m, down) ∈ applyUpdates [] events := by
    have : kp2 = (m, down) := Prod.ext hkey2 he2
    rwa [this] at hk2
  have heq : up = down := nodup_key_unique _ hinv.1 m up down hmem1 hmem2
  have hbuy := hup_pred.2
  rw [heq, hdown_pred.2] at hbuy
  exact absurd hbuy (by simp)

/-- Counterexample to claim C6 as stated: its "in particular" part
fails — no tracker state reachable by `update_position` calls ever
makes `check_merge_opportunity` return `Some`, because positions are
keyed by market id and a single key holds a single side. -/
theorem check_merge_opportunity_claim_false :
    ¬ ∃ (events : List UpdateEvent) (m : String) (th amt : ℚ),
      checkMergeOpportunity (trackerValues (applyUpdates [] events)) m th = some amt := by
  rintro ⟨events, m, th, amt, h⟩
  rw [reachable_merge_none] at h
  exact Option.noConfusion h

/-- Claim C6 (amended): (a) on an arbitrary position collection holding
exactly one UP and one DOWN position for the market, with both sizes
positive and their minimum at least the threshold,
`check_merge_opportunity` returns `Some` of that minimum; (b) when no
such UP/DOWN pair meets the conditions it returns `None`; (c) on every
tracker reachable through `update_position` it returns `None` (so the
`Some` case is only exercisable on states the public API cannot
build). -/
theorem check_merge_opportunity_spec :
    (∀ (positions : List Position) (m : String) (th : ℚ) (up down : Position),
      up ∈ positions → up.market_id = m → up.side = .buy →
      (∀ p ∈ positions, p.market_id = m → p.side = .buy → p = up) →
      down ∈ positions → down.market_id = m → down.side = .sell →
      (∀ p ∈ positions, p.market_id = m → p.side = .sell → p = down) →
      0 < up.total_size → 0 < down.total_size →
      th ≤ min up.total_size down.total_size →
      checkMergeOpportunity positions m th = some (min up.total_size down.total_size)) ∧
    (∀ (positions : List Position) (m : String) (th : ℚ),
      (¬ ∃ up down : Position, up ∈ positions ∧ down ∈ positions ∧
        up.market_id = m ∧ down.market_id = m ∧
        up.side = .buy ∧ down.side = .sell ∧
        0 < up.total_size ∧ 0 < down.total_size ∧
        th ≤ min up.total_size down.total_size) →
      checkMergeOpportunity positions m th = none) ∧
    (∀ (events : List UpdateEvent) (m : String) (th : ℚ),
      checkMergeOpportunity (trackerValues (applyUpdates [] events)) m th = none) := by
  refine ⟨?_, ?_, fun events m th => reachable_merge_none events m th⟩
  · intro positions m th up down hupm hupmk hups huniq hdnm hdnmk hdns hduniq hupsz hdnsz hth
    have hfu : positions.find?
        (fun p => decide (p.market_id = m) && decide (p.side = Side.buy)) = some up := by
      cases hf : positions.find?
          (fun p => decide (p.market_id = m) && decide (p.side = Side.buy)) with
      | none =>
        exfalso
        have hnone := List.find?_eq_none.mp hf up hupm
        simp [hupmk, hups] at hnone
      | some b =>
        have hb_pred := List.find?_some hf
        have hb_mem := List.mem_of_find?_eq_some hf
        simp only [Bool.and_eq_true, decide_eq_true_eq] at hb_pred
        rw [huniq b hb_mem hb_pred.1 hb_pred.2]
    have hfd : positions.find?
        (fun p => decide (p.market_id = m) && decide (p.side = Side.sell)) = some down := by
      cases hf : positions.find?
          (fun p => decide (p.market_id = m) && decide (p.side = Side.sell)) with
      | none =>
        exfalso
        have hnone := List.find?_eq_none.mp hf down hdnm
        simp [hdnmk, hdns] at hnone
      | some b =>
        have hb_pred := List.find?_some hf
        have hb_mem := List.mem_of_find?_eq_some hf
        simp only [Bool.and_eq_true, decide_eq_true_eq] at hb_pred
        rw [hduniq b hb_mem hb_pred.1 hb_pred.2]
    have h2 := le_min_iff.mp hth
    simp [checkMergeOpportunity, hfu, hfd, hupsz, hdnsz, h2.1, h2.2]
  · intro positions m th hne
    simp only [checkMergeOpportunity]
    rcases hfu : positions.find?
        (fun p => decide (p.market_id = m) && decide (p.side = Side.buy)) with _ | up
    · simp [hfu]
    rcases hfd : positions.find?
        (fun p => decide (p.market_id = m) && decide (p.side = Side.sell)) with _ | down
    · simp [hfu, hfd]
    have hup_pred := List.find?_some hfu
    have hdn_pred := List.find?_some hfd
    simp only [Bool.and_eq_true, decide_eq_true_eq] at hup_pred hdn_pred
    have hup_mem := List.mem_of_find?_eq_some hfu
    have hdn_mem := List.mem_of_find?_eq_some hfd
    by_cases h1 : 0 < up.total_size ∧ 0 < down.total_size
    · by_cases h2 : th ≤ up.total_size ∧ th ≤ down.total_size
      · exfalso
        exact hne ⟨up, down, hup_mem, hdn_mem, hup_pred.1, hdn_pred.1,
          hup_pred.2, hdn_pred.2, h1.1, h1.2, le_min_iff.mpr h2⟩
      · simp [hfu, hfd, h1, h2]
    · simp [hfu, hfd, h1]

/-- Witness for claim C6 (amended): a directly constructed collection
holding a 5-share UP and a 3-share DOWN position for market `M` yields
a merge amount of `min 5 3` against threshold 2. -/
theorem check_merge_opportunity_spec_witness :
    checkMergeOpportunity
      [Position.mk "M" Side.buy 5 1 [], Position.mk "M" Side.sell 3 2 []] "M" 2 =
      some (min 5 3) :=
  check_merge_opportunity_spec.1
    [Position.mk "M" Side.buy 5 1 [], Position.mk "M" Side.sell 3 2 []] "M" 2
    (Position.mk "M" Side.buy 5 1 []) (Position.mk "M" Side.sell 3 2 [])
    (by simp) rfl rfl
    (by
      intro p hp hm hs
      simp only [List.mem_cons, List.not_mem_nil, or_false] at hp
      rcases hp with rfl | rfl
      · rfl
      · exact absurd hs (by simp))
    (by simp) rfl rfl
    (by
      intro p hp hm hs
      simp only [List.mem_cons, List.not_mem_nil, or_false] at hp
      rcases hp with rfl | rfl
      · exact absurd hs (by simp)
      · rfl)
    (by norm_num) (by norm_num)
    (by rw [le_min_iff]; norm_num)

/-- `cancelEvent` always produces a cancel-step event, whichever way
the call went. -/
theorem isCancelEvent_cancelEvent (t : String) (resp : Except String CancelOrdersResult) :
    isCancelEvent (cancelEvent t resp) = true := by
  cases resp <;> rfl

/-- Counterexample to claim C1 as stated: with the UP-side cancel
returning an error and everything else healthy, the cycle still clears
the ledger, recomputes the skew, decides sizes and places both orders,
and returns `Ok` — nothing is aborted. -/
theorem cancel_failure_claim_false :
    cancelFailEnv.cancelUpResp = Except.error "cancel failed" ∧
    (runTradingCycleDualSided cancelFailEnv).2 = Except.ok () ∧
    CycleEvent.clearedLedger "UP" ∈ (runTradingCycleDualSided cancelFailEnv).1 ∧
    CycleEvent.recomputedSkew 0 0 0 ∈ (runTradingCycleDualSided cancelFailEnv).1 ∧
    CycleEvent.decidedSizes 2 2 ∈ (runTradingCycleDualSided cancelFailEnv).1 ∧
    CycleEvent.placedOrder "UP" (1/2) 2 ∈ (runTradingCycleDualSided cancelFailEnv).1 ∧
    CycleEvent.placedOrder "DOWN" (1/2) 2 ∈ (runTradingCycleDualSided cancelFailEnv).1 := by
  have hrun : runTradingCycleDualSided cancelFailEnv =
      ([CycleEvent.cancelFailed "UP", CycleEvent.cancelSucceeded "DOWN" 0,
        CycleEvent.clearedLedger "UP", CycleEvent.clearedLedger "DOWN",
        CycleEvent.waitedPropagation, CycleEvent.recomputedSkew 0 0 0,
        CycleEvent.decidedSizes 2 2, CycleEvent.placedOrder "UP" (1/2) 2,
        CycleEvent.placedOrder "DOWN" (1/2) 2], Except.ok ()) := by
    simp [runTradingCycleDualSided, fillStep, cycleRest, cancelEvent, cancelFailEnv,
      getInventoryStatus, sideValue, trackerValues, decideSizes, Except.toOption] <;>
      norm_num
  refine ⟨rfl, ?_, ?_, ?_, ?_, ?_, ?_⟩ <;> simp [hrun]

/-- Claim C1 (amended): a failure of `cancel_orders_for_market` does
not abort the cycle — apart from the logged cancel-step event the
cycle's observable behaviour and its result are identical to a
successful cancel (ledger clearing, skew recomputation, sizing and
placement all still happen), and the process does not crash.
Moreover `cancel_orders_for_market` itself never returns an error: it
swallows both open-orders-fetch failures and per-order cancel
failures. -/
theorem cancel_failure_cycle_continues :
    (∀ (env : CycleEnv) (e : String) (r : CancelOrdersResult),
      ((runTradingCycleDualSided { env with cancelUpResp := .error e }).1.filter
          (fun ev => !(isCancelEvent ev)) =
        (runTradingCycleDualSided { env with cancelUpResp := .ok r }).1.filter
          (fun ev => !(isCancelEvent ev))) ∧
      (runTradingCycleDualSided { env with cancelUpResp := .error e }).2 =
        (runTradingCycleDualSided { env with cancelUpResp := .ok r }).2) ∧
    (∀ (env : CycleEnv) (e : String) (r : CancelOrdersResult),
      ((runTradingCycleDualSided { env with cancelDownResp := .error e }).1.filter
          (fun ev => !(isCancelEvent ev)) =
        (runTradingCycleDualSided { env with cancelDownResp := .ok r }).1.filter
          (fun ev => !(isCancelEvent ev))) ∧
      (runTradingCycleDualSided { env with cancelDownResp := .error e }).2 =
        (runTradingCycleDualSided { env with cancelDownResp := .ok r }).2) ∧
    (∀ (simulation_mode : Bool) (openOrdersResp : Except String (List String))
        (cancelResp : String → Except String Unit),
      ∃ result, cancelOrdersForMarket simulation_mode openOrdersResp cancelResp =
        .ok result) := by
  refine ⟨?_, ?_, ?_⟩
  · intro env e r
    refine ⟨?_, rfl⟩
    have hsh : ∀ (X : Except String CancelOrdersResult),
        (runTradingCycleDualSided { env with cancelUpResp := X }).1 =
        (fillStep env.tracked_orders env.up_token env.openOrdersUpResp env.tracker).2 ++
        (fillStep env.tracked_orders env.down_token env.openOrdersDownResp
          (fillStep env.tracked_orders env.up_token env.openOrdersUpResp env.tracker).1).2 ++
        [cancelEvent env.up_token X, cancelEvent env.down_token env.cancelDownResp] ++
        [CycleEvent.clearedLedger env.up_token, CycleEvent.clearedLedger env.down_token,
          CycleEvent.waitedPropagation] ++
        (cycleRest env
          (fillStep env.tracked_orders env.down_token env.openOrdersDownResp
            (fillStep env.tracked_orders env.up_token env.openOrdersUpResp env.tracker).1).1).1 :=
      fun X => rfl
    rw [hsh (.error e), hsh (.ok r)]
    simp [List.filter_append, isCancelEvent_cancelEvent]
  · intro env e r
    refine ⟨?_, rfl⟩
    have hsh : ∀ (X : Except String CancelOrdersResult),
        (runTradingCycleDualSided { env with cancelDownResp := X }).1 =
        (fillStep env.tracked_orders env.up_token env.openOrdersUpResp env.tracker).2 ++
        (fillStep env.tracked_orders env.down_token env.openOrdersDownResp
          (fillStep env.tracked_orders env.up_token env.openOrdersUpResp env.tracker).1).2 ++
        [cancelEvent env.up_token env.cancelUpResp, cancelEvent env.down_token X] ++
        [CycleEvent.clearedLedger env.up_token, CycleEvent.clearedLedger env.down_token,
          CycleEvent.waitedPropagation] ++
        (cycleRest env
          (fillStep env.tracked_orders env.down_token env.openOrdersDownResp
            (fillStep env.tracked_orders env.up_token env.openOrdersUpResp env.tracker).1).1).1 :=
      fun X => rfl
    rw [hsh (.error e), hsh (.ok r)]
    simp [List.filter_append, isCancelEvent_cancelEvent]
  · intro simulation_mode openOrdersResp cancelResp
    simp only [cancelOrdersForMarket]
    repeat' split
    all_goals exact ⟨_, rfl⟩

end Polymarket
